import Mathlib

/-!
Verification of the iCrab agent execution kernel against its specification.

This file shallowly embeds the Rust sources of the iCrab repository
(message dispatcher, agent loop, session store, subagent scheduler,
cron engine, heartbeat runner) as executable Lean definitions and proves
or refutes the specification claims about them.  Each definition carries
a comment naming the Rust item it translates.  External collaborators
(the LLM HTTP client, serde_json, the SQLite layer, tokio channels) are
modelled as parameters or as small semantic models and are documented
where they appear.
-/

namespace ICrab

/-! ## Core data types (src/llm.rs, src/telegram.rs, src/tools/result.rs) -/

/-- Role of a chat message (src/llm.rs `Role`). -/
inductive Role where
  | system
  | user
  | assistant
  | tool
deriving DecidableEq, Repr

/-- src/llm.rs `ToolCallFunction`: function name and raw JSON argument text. -/
structure ToolCallFunction where
  name : String
  arguments : String
deriving DecidableEq, Repr

/-- src/llm.rs `ToolCall`: opaque id plus the requested function.
The constant `type_` field ("function") is omitted. -/
structure ToolCall where
  id : String
  function : ToolCallFunction
deriving DecidableEq, Repr

/-- src/llm.rs `Message`. -/
structure Message where
  role : Role
  content : String
  tool_call_id : Option String
  tool_calls : Option (List ToolCall)
deriving DecidableEq, Repr

/-- src/llm.rs `LlmResponse` (the `finish_reason` and `usage` fields play no
role in the dispatcher or loop and are omitted). -/
structure LlmResponse where
  content : String
  tool_calls : List ToolCall
deriving DecidableEq, Repr

/-- src/telegram.rs `InboundMsg`. -/
structure InboundMsg where
  chat_id : Int
  user_id : Int
  text : String
  channel : String
deriving DecidableEq, Repr

/-- src/telegram.rs `OutboundMsg`. -/
structure OutboundMsg where
  chat_id : Int
  text : String
  channel : String
deriving DecidableEq, Repr

/-- src/tools/result.rs `ToolResult`. -/
structure ToolResult where
  for_llm : String
  for_user : Option String
  silent : Bool
  is_error : Bool
  async_ : Bool
deriving DecidableEq, Repr

/-- src/tools/context.rs `ToolCtx`.  NOTE: translated exactly from the source:
the struct has NO `delivered` field, although src/tools/message.rs,
src/tools/subagent.rs and the integration tests all reference `ctx.delivered`.
The outbound sender handle is modelled by its presence. -/
structure ToolCtx where
  workspace : String
  restrict_to_workspace : Bool
  chat_id : Option Int
  channel : Option String
  outbound_tx : Option Unit
deriving DecidableEq, Repr

/-! ## Agent loop (src/agent.rs `run_agent_loop`)

The LLM provider (`llm.chat`), the JSON argument parser (`serde_json`) and the
tool registry's `execute` are external collaborators; the loop is parametrised
over them.  `J` is the type of parsed JSON values. -/

/-- One step of the tool-call for-loop body in `run_agent_loop`
(src/agent.rs lines 108-146): parse the arguments; on failure produce the
"Invalid JSON arguments" Tool message; on success execute the tool, possibly
send `for_user` on the outbound channel, and produce the `for_llm` Tool
message.  Returns the Tool message together with the outbound sends attempted
by the loop body (the source uses `try_send` and discards its result; a full
channel would drop the send, which does not affect the message list). -/
def processToolCall {J : Type} (parse : String → Except String J)
    (exec : String → J → ToolResult) (ctx : ToolCtx) (tc : ToolCall) :
    Message × List OutboundMsg :=
  match parse tc.function.arguments with
  | .error e =>
      (⟨Role.tool, "Invalid JSON arguments: " ++ e, some tc.id, none⟩, [])
  | .ok args =>
      let result := exec tc.function.name args
      let sends : List OutboundMsg :=
        match result.for_user, ctx.outbound_tx, ctx.chat_id with
        | some text, some _, some cid =>
            if result.silent then []
            else [⟨cid, text, ctx.channel.getD "telegram"⟩]
        | _, _, _ => []
      (⟨Role.tool, result.for_llm, some tc.id, none⟩, sends)

/-- The tool-call for-loop of `run_agent_loop` over a whole response:
processes every call in emission order, collecting the Tool messages (in
order) and the outbound sends. -/
def processCalls {J : Type} (parse : String → Except String J)
    (exec : String → J → ToolResult) (ctx : ToolCtx) :
    List ToolCall → List Message × List OutboundMsg
  | [] => ([], [])
  | tc :: rest =>
      let step := processToolCall parse exec ctx tc
      let restOut := processCalls parse exec ctx rest
      (step.1 :: restOut.1, step.2 ++ restOut.2)

/-- Result of a run of the agent loop: the returned value (`.error` for a
propagated LLM error), the final message list, the outbound sends attempted
during the run, and the number of LLM calls made. -/
structure LoopOutcome where
  result : Except String String
  messages : List Message
  sent : List OutboundMsg
  llmCalls : Nat
deriving Repr

/-- src/agent.rs `run_agent_loop`: iterate up to `max_iterations` times; call
the LLM; if the response has no tool calls return its trimmed content (or
"(No response)"); otherwise append the Assistant message, process every tool
call, and continue.  When the iteration budget is exhausted the final reply is
"Max iterations reached." (an Ok, not an error).  The `for _iter in
1..=max_iterations` loop is translated as structural recursion on the
remaining iteration count. -/
def runAgentLoop {J : Type} (chat : List Message → Except String LlmResponse)
    (parse : String → Except String J) (exec : String → J → ToolResult)
    (ctx : ToolCtx) : Nat → List Message → LoopOutcome
  | 0, msgs => ⟨.ok "Max iterations reached.", msgs, [], 0⟩
  | n + 1, msgs =>
    match chat msgs with
    | .error e => ⟨.error e, msgs, [], 1⟩
    | .ok resp =>
      if resp.tool_calls.isEmpty then
        let content := resp.content.trim
        ⟨.ok (if content.isEmpty then "(No response)" else content), msgs, [], 1⟩
      else
        let assistantMsg : Message := ⟨Role.assistant, resp.content, none, some resp.tool_calls⟩
        let calls := processCalls parse exec ctx resp.tool_calls
        let rest := runAgentLoop chat parse exec ctx n (msgs ++ assistantMsg :: calls.1)
        ⟨rest.result, rest.messages, calls.2 ++ rest.sent, rest.llmCalls + 1⟩

/-- Claim C6: with iteration cap `k` the agent loop makes at most `k` LLM
calls, and if every LLM response carries at least one tool call then the loop
returns the string "Max iterations reached." as a successful (Ok) final
reply, not an error. -/
theorem agent_loop_iteration_cap {J : Type}
    (chat : List Message → Except String LlmResponse)
    (parse : String → Except String J) (exec : String → J → ToolResult)
    (ctx : ToolCtx) (k : Nat) (msgs : List Message) :
    (runAgentLoop chat parse exec ctx k msgs).llmCalls ≤ k ∧
    ((∀ m, ∃ r, chat m = Except.ok r ∧ r.tool_calls ≠ []) →
      (runAgentLoop chat parse exec ctx k msgs).result =
        Except.ok "Max iterations reached.") := by
  induction k generalizing msgs with
  | zero => exact ⟨Nat.le_refl 0, fun _ => rfl⟩
  | succ n ih =>
    constructor
    · show (runAgentLoop chat parse exec ctx (n + 1) msgs).llmCalls ≤ n + 1
      unfold runAgentLoop
      cases hc : chat msgs with
      | error e => simp
      | ok resp =>
        by_cases he : resp.tool_calls.isEmpty
        · simp [he]
        · simpa [he] using (ih _).1
    · intro hall
      show (runAgentLoop chat parse exec ctx (n + 1) msgs).result = _
      unfold runAgentLoop
      obtain ⟨r, hr, hne⟩ := hall msgs
      rw [hr]
      have : r.tool_calls.isEmpty = false := by
        cases h : r.tool_calls with
        | nil => exact absurd h hne
        | cons a l => rfl
      simpa [this] using (ih _).2 hall

/-- Concrete witness data for the agent-loop theorems: an LLM stub that always
requests one tool call. -/
def alwaysToolChat : List Message → Except String LlmResponse :=
  fun _ => Except.ok ⟨"", [⟨"call_1", ⟨"read_file", "."⟩⟩]⟩

/-- Trivial JSON model for witnesses: parsing returns the raw string. -/
def idParse : String → Except String String := fun s => Except.ok s

/-- Tool stub for witnesses: every call returns a plain ok result. -/
def okExec : String → String → ToolResult := fun _ _ => ⟨"ok", none, false, false, false⟩

/-- Witness ToolCtx (no outbound channel, chat 1). -/
def witnessCtx : ToolCtx := ⟨"/ws", true, some 1, some "telegram", none⟩

/-- Witness for the C6 theorem: a model that always asks for a tool call
drives the loop to "Max iterations reached." after exactly its budget of
2 calls. -/
theorem agent_loop_iteration_cap_witness :
    (runAgentLoop alwaysToolChat idParse okExec witnessCtx 2 []).llmCalls ≤ 2 ∧
    (runAgentLoop alwaysToolChat idParse okExec witnessCtx 2 []).result =
      Except.ok "Max iterations reached." := by
  have h := agent_loop_iteration_cap alwaysToolChat idParse okExec witnessCtx 2 []
  exact ⟨h.1, h.2 (fun m => ⟨⟨"", [⟨"call_1", ⟨"read_file", "."⟩⟩]⟩, rfl, by simp⟩)⟩

/-- Claim C7: within one agent-loop iteration the requested tool calls are
processed in the order the model emitted them, each call yields exactly one
Tool message carrying that call's id — the result's `for_llm` text or
"Invalid JSON arguments: <err>" on a parse failure — and a parse failure does
not abort the remaining calls: the loop recurses with one Tool message per
call appended after the Assistant message. -/
theorem tool_messages_in_order {J : Type}
    (chat : List Message → Except String LlmResponse)
    (parse : String → Except String J) (exec : String → J → ToolResult)
    (ctx : ToolCtx) (n : Nat) (msgs : List Message) (resp : LlmResponse)
    (h : chat msgs = Except.ok resp) (hne : resp.tool_calls ≠ []) :
    (processCalls parse exec ctx resp.tool_calls).1 =
      resp.tool_calls.map (fun tc => (processToolCall parse exec ctx tc).1) ∧
    (∀ tc ∈ resp.tool_calls,
      (processToolCall parse exec ctx tc).1.role = Role.tool ∧
      (processToolCall parse exec ctx tc).1.tool_call_id = some tc.id ∧
      (processToolCall parse exec ctx tc).1.content =
        (match parse tc.function.arguments with
         | .error e => "Invalid JSON arguments: " ++ e
         | .ok args => (exec tc.function.name args).for_llm)) ∧
    runAgentLoop chat parse exec ctx (n + 1) msgs =
      (let inner := runAgentLoop chat parse exec ctx n
          (msgs ++ ⟨Role.assistant, resp.content, none, some resp.tool_calls⟩ ::
            resp.tool_calls.map (fun tc => (processToolCall parse exec ctx tc).1));
       ⟨inner.result, inner.messages,
        (processCalls parse exec ctx resp.tool_calls).2 ++ inner.sent,
        inner.llmCalls + 1⟩) := by
  have hmap : ∀ l : List ToolCall,
      (processCalls parse exec ctx l).1 =
        l.map (fun tc => (processToolCall parse exec ctx tc).1) := by
    intro l
    induction l with
    | nil => rfl
    | cons tc rest ih => simp [processCalls, ih]
  refine ⟨hmap resp.tool_calls, ?_, ?_⟩
  · intro tc _
    unfold processToolCall
    cases hp : parse tc.function.arguments with
    | error e => exact ⟨rfl, rfl, rfl⟩
    | ok args => exact ⟨rfl, rfl, rfl⟩
  · have hempty : resp.tool_calls.isEmpty = false := by
      cases hl : resp.tool_calls with
      | nil => exact absurd hl hne
      | cons a l => rfl
    show runAgentLoop chat parse exec ctx (n + 1) msgs = _
    conv_lhs => rw [runAgentLoop]
    rw [h]
    simp only [hempty, Bool.false_eq_true, if_false, hmap resp.tool_calls]

/-- Witness LLM response for the C7 theorem: two tool calls, the second with
arguments the witness parser rejects. -/
def respC7 : LlmResponse :=
  ⟨"working", [⟨"a", ⟨"read_file", "GOOD"⟩⟩, ⟨"b", ⟨"read_file", "BAD"⟩⟩]⟩

/-- Witness LLM stub returning `respC7`. -/
def chatC7 : List Message → Except String LlmResponse := fun _ => Except.ok respC7

/-- Witness parser failing exactly on the text "BAD". -/
def parseC7 : String → Except String String :=
  fun s => if s = "BAD" then Except.error "expected value" else Except.ok s

/-- Witness for the C7 theorem: on a response with a good and a bad call, the
iteration produces exactly one Tool message per call, in order, the second
being the parse-failure message. -/
theorem tool_messages_in_order_witness :
    (processCalls parseC7 okExec witnessCtx respC7.tool_calls).1 =
      respC7.tool_calls.map (fun tc => (processToolCall parseC7 okExec witnessCtx tc).1) ∧
    (processCalls parseC7 okExec witnessCtx respC7.tool_calls).1 =
      [⟨Role.tool, "ok", some "a", none⟩,
       ⟨Role.tool, "Invalid JSON arguments: expected value", some "b", none⟩] :=
  ⟨(tool_messages_in_order chatC7 parseC7 okExec witnessCtx 0 [] respC7 rfl
      (by simp [respC7])).1, by decide⟩

/-! ## Message dispatcher reply decision (src/main.rs) -/

/-- The post-turn reply decision of the dispatcher loop in src/main.rs
(lines 222-234): the final reply is dropped only for a heartbeat message with
chat_id 0; otherwise it is always enqueued on the outbound channel.  The
source contains no check of any delivered flag — `ToolCtx` in
src/tools/context.rs carries no such field — although src/tools/message.rs
stores through `ctx.delivered`, src/tools/subagent.rs propagates it "back to
main.rs", and the tests construct `ToolCtx` with a `delivered` field. -/
def mainLoopOutbound (msg : InboundMsg) (reply : String) : Option OutboundMsg :=
  if msg.channel = "heartbeat" ∧ msg.chat_id = 0 then none
  else some ⟨msg.chat_id, reply, msg.channel⟩

/-- Claim C1 (refuted by the code as written): in a telegram turn in which the
message tool has already enqueued its text to the user, the dispatcher still
enqueues the model's final text — `mainLoopOutbound` depends only on the
channel and chat id, so no suppression of the duplicate reply ever happens. -/
theorem dispatcher_resends_despite_tool_delivery :
    mainLoopOutbound ⟨42, 7, "hi", "telegram"⟩ "final reply" =
      some ⟨42, "final reply", "telegram"⟩ := by decide

/-! ## Cron expression parsing (src/tools/cron.rs)

The Rust code works on `&str`; the embedding works on character lists, with
helpers mirroring the `str` operations used by the source. -/

/-- Rust `str::trim` (strip leading and trailing whitespace). -/
def trimChars (cs : List Char) : List Char :=
  ((cs.dropWhile Char.isWhitespace).reverse.dropWhile Char.isWhitespace).reverse

/-- Rust `str::split(sep)`: "a,,b" has parts "a", "", "b"; the empty string
has the single part "". -/
def splitOnChar (sep : Char) : List Char → List (List Char)
  | [] => [[]]
  | c :: rest =>
    if c = sep then [] :: splitOnChar sep rest
    else
      match splitOnChar sep rest with
      | [] => [c] :: []
      | p :: ps => (c :: p) :: ps

/-- Rust `str::split_once(sep)`: split at the first occurrence, if any. -/
def splitOnceChar (sep : Char) : List Char → Option (List Char × List Char)
  | [] => none
  | c :: rest =>
    if c = sep then some ([], rest)
    else
      match splitOnceChar sep rest with
      | none => none
      | some (a, b) => some (c :: a, b)

/-- Rust `str::split_whitespace`: maximal non-whitespace runs. -/
def splitWsAux (acc : List Char) : List Char → List (List Char)
  | [] => if acc = [] then [] else [acc.reverse]
  | c :: rest =>
    if c.isWhitespace then
      if acc = [] then splitWsAux [] rest else acc.reverse :: splitWsAux [] rest
    else splitWsAux (c :: acc) rest

/-- Rust `str::split_whitespace` over a whole string. -/
def splitWsChars (cs : List Char) : List (List Char) := splitWsAux [] cs

/-- Rust `u8::from_str`: an optional leading '+', then one or more ASCII
digits, with the value in 0..=255. -/
def parseU8 (cs : List Char) : Option Nat :=
  let ds := match cs with
            | '+' :: rest => rest
            | _ => cs
  if ds = [] then none
  else if ds.all Char.isDigit then
    let v := ds.foldl (fun a c => a * 10 + (c.toNat - 48)) 0
    if v ≤ 255 then some v else none
  else none

/-- src/tools/cron.rs `CronError`. -/
inductive CronError where
  | io (s : String)
  | parse (s : String)
  | validation (s : String)
deriving DecidableEq, Repr

/-- src/tools/cron.rs `CronExpr`: the allowed value sets of the five fields. -/
structure CronExpr where
  minutes : List Nat
  hours : List Nat
  doms : List Nat
  months : List Nat
  dows : List Nat
deriving DecidableEq, Repr

/-- The inclusive range `min..=max` pushed by the `*` branch of
`parse_field`. -/
def rangeIncl (lo hi : Nat) : List Nat := List.range' lo (hi + 1 - lo)

/-- u8 `saturating_add`. -/
def satAddU8 (a b : Nat) : Nat := min (a + b) 255

/-- The `while v <= max { push v; v = v.saturating_add(step) }` loop of the
`*/S` and `N-M/S` branches of `parse_field`, as fuel recursion.  With a
positive step the source loop runs at most `stop + 1` times before `v`
exceeds `stop` (field bounds are ≤ 59, far from the u8 saturation point);
the fuel only truncates the source's divergence on a zero step, which the
`*/S` branch rejects and the range branch can reach via an unparsable step
suffix defaulting to... a parsable "0". -/
def stepClimb : Nat → Nat → Nat → Nat → List Nat
  | 0, _, _, _ => []
  | fuel + 1, v, stop, step =>
    if v ≤ stop then v :: stepClimb fuel (satAddU8 v step) stop step else []

/-- Insertion step for `sortNat`. -/
def insertNat (x : Nat) : List Nat → List Nat
  | [] => [x]
  | y :: rest => if x ≤ y then x :: y :: rest else y :: insertNat x rest

/-- `Vec::sort_unstable` on the collected field values (insertion sort; the
sorted result is what matters, not the algorithm). -/
def sortNat (l : List Nat) : List Nat := l.foldr insertNat []

/-- `Vec::dedup` tail: drop elements equal to the previous kept one. -/
def dedupConsecAux (prev : Nat) : List Nat → List Nat
  | [] => []
  | b :: rest =>
    if b = prev then dedupConsecAux prev rest else b :: dedupConsecAux b rest

/-- `Vec::dedup`: collapse consecutive duplicates, keeping the first of each
run. -/
def dedupConsec : List Nat → List Nat
  | [] => []
  | a :: rest => a :: dedupConsecAux a rest

/-- One comma-separated part of a cron field, mirroring the branch order of
src/tools/cron.rs `parse_field`: "*", then "*/S", then ranges "N-M" with an
optional "/S" suffix, then a single number.  The part is already trimmed and
non-empty. -/
def parseFieldPart (part : List Char) (minv maxv : Nat) : Except CronError (List Nat) :=
  if part = ['*'] then Except.ok (rangeIncl minv maxv)
  else
    match part with
    | '*' :: '/' :: rest =>
      match parseU8 rest with
      | none => Except.error (.validation "invalid step")
      | some step =>
        if step = 0 then Except.error (.validation "step must be positive")
        else Except.ok (stepClimb (maxv + 2) minv maxv step)
    | _ =>
      match splitOnceChar '-' part with
      | some (before, after) =>
        match parseU8 (trimChars before) with
        | none => Except.error (.validation "invalid range start")
        | some start =>
          let afterT := trimChars after
          let slashed := splitOnChar '/' afterT
          match parseU8 (slashed.headD afterT) with
          | none => Except.error (.validation "invalid range end")
          | some stop =>
            if stop < start then Except.error (.validation "range start > end")
            else if start < minv ∨ maxv < stop then
              Except.error (.validation "range out of bounds")
            else
              let step := match slashed.get? 1 with
                          | some s => (parseU8 s).getD 1
                          | none => 1
              Except.ok (stepClimb (maxv + 2) start stop step)
      | none =>
        match parseU8 part with
        | none => Except.error (.validation "invalid number")
        | some single =>
          if single < minv ∨ maxv < single then
            Except.error (.validation "value out of range")
          else Except.ok [single]

/-- The for-loop of `parse_field` over the comma-separated parts: trimmed
empty parts are skipped, the first failing part aborts, values accumulate in
order. -/
def parseFieldParts (minv maxv : Nat) : List (List Char) → Except CronError (List Nat)
  | [] => Except.ok []
  | p :: rest =>
    let pt := trimChars p
    if pt = [] then parseFieldParts minv maxv rest
    else
      match parseFieldPart pt minv maxv with
      | Except.error e => Except.error e
      | Except.ok vs =>
        match parseFieldParts minv maxv rest with
        | Except.error e => Except.error e
        | Except.ok others => Except.ok (vs ++ others)

/-- src/tools/cron.rs `parse_field`: split on commas, collect, sort, dedup,
reject an empty result. -/
def parseField (token : List Char) (minv maxv : Nat) : Except CronError (List Nat) :=
  match parseFieldParts minv maxv (splitOnChar ',' token) with
  | Except.error e => Except.error e
  | Except.ok out =>
    let out := dedupConsec (sortNat out)
    if out = [] then Except.error (.validation "empty field") else Except.ok out

/-- src/tools/cron.rs `parse_cron_expr`: exactly five whitespace-separated
fields with ranges minute 0-59, hour 0-23, dom 1-31, month 1-12, dow 0-6. -/
def parseCronExpr (expr : String) : Except CronError CronExpr :=
  match splitWsChars expr.data with
  | [t0, t1, t2, t3, t4] =>
    match parseField t0 0 59 with
    | Except.error e => Except.error e
    | Except.ok minutes =>
    match parseField t1 0 23 with
    | Except.error e => Except.error e
    | Except.ok hours =>
    match parseField t2 1 31 with
    | Except.error e => Except.error e
    | Except.ok doms =>
    match parseField t3 1 12 with
    | Except.error e => Except.error e
    | Except.ok months =>
    match parseField t4 0 6 with
    | Except.error e => Except.error e
    | Except.ok dows => Except.ok ⟨minutes, hours, doms, months, dows⟩
  | _ =>
    Except.error
      (.validation "cron expression must have exactly 5 fields (minute hour dom month dow)")

/-! ## Calendar arithmetic (model of the chrono operations used by
`next_match`: proleptic Gregorian calendar in UTC, Unix timestamps in
seconds). -/

/-- Civil date (year, month, day) of a day count since 1970-01-01
(Howard Hinnant's algorithm; exact for all day counts at or after the
epoch, which is all `next_match` ever visits). -/
def civilFromDays (days : Nat) : Nat × Nat × Nat :=
  let z := days + 719468
  let era := z / 146097
  let doe := z % 146097
  let yoe := (doe - doe / 1460 + doe / 36524 - doe / 146096) / 365
  let y := yoe + era * 400
  let doy := doe - (365 * yoe + yoe / 4 - yoe / 100)
  let mp := (5 * doy + 2) / 153
  let d := doy - (153 * mp + 2) / 5 + 1
  let m := if mp < 10 then mp + 3 else mp - 9
  (if m ≤ 2 then y + 1 else y, m, d)

/-- Day count since 1970-01-01 of a civil date (inverse of
`civilFromDays`). -/
def daysFromCivil (y m d : Nat) : Nat :=
  let y := if m ≤ 2 then y - 1 else y
  let era := y / 400
  let yoe := y - era * 400
  let doy := (153 * (if 2 < m then m - 3 else m + 9) + 2) / 5 + (d - 1)
  let doe := yoe * 365 + yoe / 4 - yoe / 100 + doy
  era * 146097 + doe - 719468

/-- chrono `DateTime::year` of a Unix timestamp. -/
def tsYear (ts : Nat) : Nat := (civilFromDays (ts / 86400)).1

/-- chrono `DateTime::month`. -/
def tsMonth (ts : Nat) : Nat := (civilFromDays (ts / 86400)).2.1

/-- chrono `DateTime::day`. -/
def tsDay (ts : Nat) : Nat := (civilFromDays (ts / 86400)).2.2

/-- chrono `DateTime::hour`. -/
def tsHour (ts : Nat) : Nat := ts % 86400 / 3600

/-- chrono `DateTime::minute`. -/
def tsMinute (ts : Nat) : Nat := ts % 3600 / 60

/-- chrono `Weekday::num_days_from_sunday` (1970-01-01 was a Thursday). -/
def tsDow (ts : Nat) : Nat := (ts / 86400 + 4) % 7

/-! ## Next-match search (src/tools/cron.rs `next_match`) -/

/-- src/tools/cron.rs `next_matching_month`: scan up to 24 successive months
starting at (y, m) for one whose number the expression allows; the result is
midnight on the first of that month. -/
def nextMatchingMonthGo (expr : CronExpr) : Nat → Nat → Nat → Option Nat
  | 0, _, _ => none
  | fuel + 1, y, m =>
    if expr.months.contains m then some (daysFromCivil y m 1 * 86400)
    else if 12 ≤ m then nextMatchingMonthGo expr fuel (y + 1) 1
    else nextMatchingMonthGo expr fuel y (m + 1)

/-- `next_matching_month` from a timestamp. -/
def nextMatchingMonth (ts : Nat) (expr : CronExpr) : Option Nat :=
  nextMatchingMonthGo expr 24 (tsYear ts) (tsMonth ts)

/-- src/tools/cron.rs `next_hour_in_expr`: the next (day, hour) with the hour
in the allowed set strictly after the given hour, rolling over to the first
allowed hour of the next day.  Hour sets produced by `parseField` are never
empty; on an empty set the source loops forever (reaching its Date::MAX arm
only at the end of time) and the model answers (next day, 23) like that
arm. -/
def nextHourInExpr (days hour : Nat) (hours : List Nat) : Nat × Nat :=
  match hours.find? (fun h => decide (hour < h)) with
  | some h => (days, h)
  | none =>
    match hours.head? with
    | some h => (days + 1, h)
    | none => (days + 1, 23)

/-- The `while dt.year() <= limit` loop of src/tools/cron.rs `next_match`:
fix the month, then the day (dom AND dow), then the hour, then the minute,
each time restarting the checks from the advanced time; a timestamp passing
all four checks is the match.  The loop is fuel recursion: every branch moves
`dt` strictly forward and at most three iterations inspect any one calendar
day, so the source loop performs well under 20 000 iterations before the
year bound fails; the fuel never runs out first. -/
def nextMatchGo (expr : CronExpr) (limit : Nat) : Nat → Nat → Option Nat
  | 0, _ => none
  | fuel + 1, ts =>
    if limit < tsYear ts then none
    else if expr.months.contains (tsMonth ts) = false then
      match nextMatchingMonth ts expr with
      | none => none
      | some ts2 => nextMatchGo expr limit fuel ts2
    else if (expr.doms.contains (tsDay ts) && expr.dows.contains (tsDow ts)) = false then
      nextMatchGo expr limit fuel ((ts / 86400 + 1) * 86400)
    else if expr.hours.contains (tsHour ts) = false then
      match expr.hours.find? (fun h => decide (tsHour ts ≤ h)) with
      | some h => nextMatchGo expr limit fuel (ts / 86400 * 86400 + h * 3600)
      | none => nextMatchGo expr limit fuel ((ts / 86400 + 1) * 86400)
    else if expr.minutes.contains (tsMinute ts) = false then
      match expr.minutes.find? (fun mn => decide (tsMinute ts ≤ mn)) with
      | some mn =>
          nextMatchGo expr limit fuel (ts / 86400 * 86400 + tsHour ts * 3600 + mn * 60)
      | none =>
          let dh := nextHourInExpr (ts / 86400) (tsHour ts) expr.hours
          nextMatchGo expr limit fuel (dh.1 * 86400 + dh.2 * 3600 + expr.minutes.headD 0 * 60)
    else some ts

/-- src/tools/cron.rs `LIMIT_YEARS`. -/
def LIMIT_YEARS : Nat := 4

/-- src/tools/cron.rs `next_match`: search from the minute strictly after
`after_unix`, bounded by a four-year horizon from the start year. -/
def nextMatch (expr : CronExpr) (after_unix : Nat) : Option Nat :=
  let start_secs := (after_unix / 60 + 1) * 60
  let limit := tsYear start_secs + LIMIT_YEARS
  nextMatchGo expr limit 20000 start_secs

/-- src/tools/cron.rs `Schedule`. -/
inductive Schedule where
  | once (at_unix : Nat)
  | interval (every_seconds : Nat)
  | cron (expr : String)
deriving DecidableEq, Repr

/-- src/tools/cron.rs `Schedule::next_fire_after`. -/
def nextFireAfter : Schedule → Nat → Option Nat
  | .once at_unix, after => if after < at_unix then some at_unix else none
  | .interval s, after => some (after + s)
  | .cron e, after =>
    match parseCronExpr e with
    | Except.ok ex => nextMatch ex after
    | Except.error _ => none

/-- Claim C9: for the cron expression "0 9 * * 1-5" and the reference time
1771761600 (Sunday 2026-02-22 12:00:00 UTC, as the accessor conjuncts
verify), the computed next fire time is 1771837200, which is Monday
2026-02-23 09:00:00 UTC. -/
theorem cron_weekday_expr_next_fire :
    nextFireAfter (Schedule.cron "0 9 * * 1-5") 1771761600 = some 1771837200 ∧
    (tsYear 1771761600, tsMonth 1771761600, tsDay 1771761600) = (2026, 2, 22) ∧
    tsDow 1771761600 = 0 ∧ tsHour 1771761600 = 12 ∧ tsMinute 1771761600 = 0 ∧
    (tsYear 1771837200, tsMonth 1771837200, tsDay 1771837200) = (2026, 2, 23) ∧
    tsDow 1771837200 = 1 ∧ tsHour 1771837200 = 9 ∧ tsMinute 1771837200 = 0 := by
  refine ⟨by decide, by decide, by decide, by decide, by decide, by decide,
    by decide, by decide, by decide⟩

/-! ## Bounded channels (model of tokio::sync::mpsc as used by the sources) -/

/-- A bounded mpsc channel: fixed capacity and the queued items. -/
structure Channel (α : Type) where
  cap : Nat
  items : List α
deriving DecidableEq, Repr

/-- Outcome of a send on a bounded channel: the message is enqueued, or it is
dropped (`try_send` on a full queue returns an error and the caller loses the
message), or the sender suspends until the consumer frees space (`send(..)
.await` on a full queue — the message is retained, not dropped). -/
inductive SendOutcome (α : Type) where
  | sent (ch : Channel α)
  | droppedFull
  | blockedUntilSpace (m : α)
deriving DecidableEq, Repr

/-- tokio `Sender::try_send`. -/
def trySend {α : Type} (ch : Channel α) (m : α) : SendOutcome α :=
  if ch.items.length < ch.cap then .sent ⟨ch.cap, ch.items ++ [m]⟩ else .droppedFull

/-- tokio `Sender::send(..).await` (the receiver-closed error, which only
occurs at process shutdown, is not modelled). -/
def awaitSend {α : Type} (ch : Channel α) (m : α) : SendOutcome α :=
  if ch.items.length < ch.cap then .sent ⟨ch.cap, ch.items ++ [m]⟩
  else .blockedUntilSpace m

/-! ## Cron job store (src/tools/cron.rs `CronJob`, `CronStore`)

The store's on-disk persistence (`save_inner` writing jobs.json) performs no
data transformation and is not modelled; `unix_now()` becomes an explicit
`now` argument. -/

/-- src/tools/cron.rs `JobAction`. -/
inductive JobAction where
  | agent
  | direct
deriving DecidableEq, Repr

/-- src/tools/cron.rs `CronJob`. -/
structure CronJob where
  id : String
  label : Option String
  message : String
  action : JobAction
  schedule : Schedule
  enabled : Bool
  chat_id : Int
  created_at : Nat
  last_run : Option Nat
  next_run : Option Nat
deriving DecidableEq, Repr

/-- The mutable state of a `CronStore`: the job vector and the id counter. -/
structure CronState where
  jobs : List CronJob
  next_id : Nat
deriving DecidableEq, Repr

/-- `CronStore::empty`. -/
def emptyCronState : CronState := ⟨[], 1⟩

/-- Schedule shape tests. -/
def isOnceSched : Schedule → Bool
  | .once _ => true
  | _ => false

/-- Schedule shape test for `Cron`. -/
def isCronSched : Schedule → Bool
  | .cron _ => true
  | _ => false

/-- Schedule shape test for `Interval`. -/
def isIntervalSched : Schedule → Bool
  | .interval _ => true
  | _ => false

/-- src/tools/cron.rs `CronStore::add`, split by schedule variant: each
variant performs exactly the source's sequential validations — Interval must
be ≥ 60; Once must be strictly in the future; Cron must have an upcoming
match (`next_fire_after` is None both for an unparsable expression and for an
exhausted horizon, and either is rejected) — then the job `job-<n>` is pushed
enabled, with last-fire unset and the computed initial next fire. -/
def cronAdd (st : CronState) (label : Option String) (message : String)
    (action : JobAction) (schedule : Schedule) (chat_id : Int) (now : Nat) :
    Except CronError (CronState × CronJob) :=
  let push : Option Nat → CronState × CronJob := fun next_run =>
    let job : CronJob :=
      ⟨"job-" ++ toString st.next_id, label, message, action, schedule, true,
       chat_id, now, none, next_run⟩
    (⟨st.jobs ++ [job], st.next_id + 1⟩, job)
  match schedule with
  | Schedule.once at_unix =>
    if at_unix ≤ now then
      Except.error (.validation "Scheduled time must be in the future")
    else Except.ok (push (some at_unix))
  | Schedule.interval s =>
    if s < 60 then
      Except.error (.validation "interval must be at least 60 seconds")
    else Except.ok (push (nextFireAfter (Schedule.interval s) now))
  | Schedule.cron e =>
    match nextFireAfter (Schedule.cron e) now with
    | none => Except.error (.validation "cron expression has no upcoming matches")
    | some v => Except.ok (push (some v))

/-- `iter_mut().find(..)` followed by a mutation: update the first job
matching the predicate. -/
def updateFirst (p : CronJob → Bool) (f : CronJob → CronJob) :
    List CronJob → List CronJob
  | [] => []
  | j :: rest => if p j then f j :: rest else j :: updateFirst p f rest

/-- src/tools/cron.rs `CronStore::enable`: set enabled and re-derive the next
fire from now. -/
def cronEnable (st : CronState) (id : String) (now : Nat) : CronState :=
  ⟨updateFirst (fun j => j.id = id)
     (fun j => { j with enabled := true, next_run := nextFireAfter j.schedule now })
     st.jobs, st.next_id⟩

/-- src/tools/cron.rs `CronStore::disable`: clear enabled and the next
fire. -/
def cronDisable (st : CronState) (id : String) : CronState :=
  ⟨updateFirst (fun j => j.id = id)
     (fun j => { j with enabled := false, next_run := none })
     st.jobs, st.next_id⟩

/-- The per-job mutation of src/tools/cron.rs `CronStore::mark_fired`: set
last-fire; for Once also disable and clear the next fire; otherwise recompute
the next fire from now. -/
def markFiredJob (now : Nat) (j : CronJob) : CronJob :=
  match j.schedule with
  | Schedule.once _ => { j with last_run := some now, enabled := false, next_run := none }
  | Schedule.interval s => { j with last_run := some now, next_run := some (now + s) }
  | Schedule.cron _ => { j with last_run := some now, next_run := nextFireAfter j.schedule now }

/-- src/tools/cron.rs `CronStore::mark_fired`. -/
def cronMarkFired (st : CronState) (id : String) (now : Nat) : CronState :=
  ⟨updateFirst (fun j => j.id = id) (markFiredJob now) st.jobs, st.next_id⟩

/-- src/tools/cron.rs `CronStore::find_due`: the enabled jobs whose next fire
is at or before now. -/
def findDue (jobs : List CronJob) (now : Nat) : List CronJob :=
  jobs.filter (fun j =>
    j.enabled && (match j.next_run with | some n => decide (n ≤ now) | none => false))

/-! ## Cron tick (src/cron_runner.rs `tick_once`) -/

/-- State threaded through one cron tick: the store, the two channels, and
the ids of jobs whose message was dropped on a full channel (the log
lines). -/
structure TickResult where
  st : CronState
  inbound : Channel InboundMsg
  outbound : Channel OutboundMsg
  dropped : List String
deriving Repr

/-- The loop body of `tick_once` for one due job: try_send its message on the
matching channel (Agent → inbound, Direct → outbound, channel label "cron"),
log a drop when the channel is full, then — unconditionally, even after a
drop — `mark_fired`. -/
def tickStep (now : Nat) (acc : TickResult) (job : CronJob) : TickResult :=
  let acc2 :=
    match job.action with
    | JobAction.agent =>
      match trySend acc.inbound ⟨job.chat_id, 0, job.message, "cron"⟩ with
      | SendOutcome.sent ch => { acc with inbound := ch }
      | _ => { acc with dropped := acc.dropped ++ [job.id] }
    | JobAction.direct =>
      match trySend acc.outbound ⟨job.chat_id, job.message, "cron"⟩ with
      | SendOutcome.sent ch => { acc with outbound := ch }
      | _ => { acc with dropped := acc.dropped ++ [job.id] }
  { acc2 with st := cronMarkFired acc2.st job.id now }

/-- src/cron_runner.rs `tick_once`: snapshot the due jobs of the store, then
run `tickStep` over them in order. -/
def tickOnce (st : CronState) (inb : Channel InboundMsg)
    (outb : Channel OutboundMsg) (now : Nat) : TickResult :=
  (findDue st.jobs now).foldl (tickStep now) ⟨st, inb, outb, []⟩

/-- On full channels one `tickStep` leaves the channels untouched, logs the
job id as dropped, and still marks the job fired (shared helper). -/
theorem tickStep_full (now : Nat) (acc : TickResult) (job : CronJob)
    (hin : acc.inbound.cap ≤ acc.inbound.items.length)
    (hout : acc.outbound.cap ≤ acc.outbound.items.length) :
    tickStep now acc job =
      ⟨cronMarkFired acc.st job.id now, acc.inbound, acc.outbound,
       acc.dropped ++ [job.id]⟩ := by
  obtain ⟨s, i, o, d⟩ := acc
  have hi : ¬ i.items.length < i.cap := Nat.not_lt.mpr hin
  have ho : ¬ o.items.length < o.cap := Nat.not_lt.mpr hout
  cases hja : job.action <;> simp [tickStep, trySend, hi, ho, hja]

/-- Folding `tickStep` over a due list with full channels: the channels stay
as they were, every job id is logged, and every job is still marked fired
(shared helper). -/
theorem tickFold_full (now : Nat) :
    ∀ (due : List CronJob) (acc : TickResult),
    acc.inbound.cap ≤ acc.inbound.items.length →
    acc.outbound.cap ≤ acc.outbound.items.length →
    due.foldl (tickStep now) acc =
      ⟨due.foldl (fun s j => cronMarkFired s j.id now) acc.st,
       acc.inbound, acc.outbound, acc.dropped ++ due.map (fun j => j.id)⟩
  | [], acc, _, _ => by obtain ⟨s, i, o, d⟩ := acc; simp
  | job :: rest, acc, hin, hout => by
    rw [List.foldl_cons, tickStep_full now acc job hin hout,
      tickFold_full now rest
        ⟨cronMarkFired acc.st job.id now, acc.inbound, acc.outbound,
         acc.dropped ++ [job.id]⟩ hin hout]
    simp

/-- The store with one due Once job, built through `cronAdd` at time 50, used
by the C2 counterexample. -/
def c2Store : CronState :=
  match cronAdd emptyCronState none "Reminder" JobAction.direct
      (Schedule.once 100) 12345 50 with
  | Except.ok p => p.1
  | Except.error _ => emptyCronState

/-- A full outbound channel (capacity 1, one message queued) for the C2
counterexample. -/
def fullOutbound : Channel OutboundMsg := ⟨1, [⟨1, "pending", "telegram"⟩]⟩

/-- Claim C2 counterexample: at tick time 100 the due Once job "job-1" has
its message dropped because the outbound channel is full — yet its stored
state is changed by that very tick: last-fire is set to 100, the job is
disabled and next-fire cleared, and the following tick (time 200) finds
nothing due, so the job is never re-fired.  This refutes the claim that the
job's stored state is unchanged for the tick. -/
theorem cron_overflow_still_changes_job_state :
    (tickOnce c2Store ⟨8, []⟩ fullOutbound 100).dropped = ["job-1"] ∧
    (tickOnce c2Store ⟨8, []⟩ fullOutbound 100).outbound = fullOutbound ∧
    (tickOnce c2Store ⟨8, []⟩ fullOutbound 100).st.jobs =
      [⟨"job-1", none, "Reminder", JobAction.direct, Schedule.once 100,
        false, 12345, 50, some 100, none⟩] ∧
    findDue (tickOnce c2Store ⟨8, []⟩ fullOutbound 100).st.jobs 200 = [] := by
  refine ⟨by decide, by decide, by decide, by decide⟩

/-- Claim C2 amended: for every due cron job whose message cannot be enqueued
because the channel is full, the message is dropped for the tick and the drop
is logged, but `mark_fired` is still called: the resulting store state is
exactly the one obtained by marking every due job fired (last-fire set,
next-fire recomputed, a Once job disabled), so the following tick does not
re-fire the job. -/
theorem cron_overflow_drops_message_but_marks_fired (st : CronState)
    (inb : Channel InboundMsg) (outb : Channel OutboundMsg) (now : Nat)
    (hin : inb.cap ≤ inb.items.length) (hout : outb.cap ≤ outb.items.length) :
    tickOnce st inb outb now =
      ⟨(findDue st.jobs now).foldl (fun s j => cronMarkFired s j.id now) st,
       inb, outb, (findDue st.jobs now).map (fun j => j.id)⟩ := by
  unfold tickOnce
  rw [tickFold_full now (findDue st.jobs now) ⟨st, inb, outb, []⟩ hin hout]
  simp

/-- Witness for the amended C2 theorem at the concrete store of the
counterexample: the tick equation instantiated and evaluated. -/
theorem cron_overflow_drops_message_but_marks_fired_witness :
    tickOnce c2Store ⟨0, []⟩ fullOutbound 100 =
      ⟨(findDue c2Store.jobs 100).foldl (fun s j => cronMarkFired s j.id 100) c2Store,
       ⟨0, []⟩, fullOutbound, (findDue c2Store.jobs 100).map (fun j => j.id)⟩ :=
  cron_overflow_drops_message_but_marks_fired c2Store ⟨0, []⟩ fullOutbound 100
    (by decide) (by decide)

/-! ## Heartbeat producer (src/heartbeat.rs) -/

/-- The dispatcher message the heartbeat runner builds for one task
(src/heartbeat.rs lines 78-84): chat-id from the last active chat, user-id 0,
the task text with marker, channel "heartbeat". -/
def heartbeatTaskMsg (chat_id : Int) (task : String) : InboundMsg :=
  ⟨chat_id, 0, "[Heartbeat Task] " ++ task, "heartbeat"⟩

/-- The send the heartbeat runner performs for one task (src/heartbeat.rs
line 85): a blocking `inbound_tx.send(msg).await`, not `try_send` — on a full
queue the runner suspends until space frees and the message is retained. -/
def heartbeatSend (ch : Channel InboundMsg) (chat_id : Int) (task : String) :
    SendOutcome InboundMsg :=
  awaitSend ch (heartbeatTaskMsg chat_id task)

/-- Claim C3 counterexample: on a full dispatcher queue (capacity 1, one
message queued) the heartbeat producer does NOT drop the message being
enqueued — it blocks awaiting queue space with the message retained.  This
refutes the claim that both producers drop. -/
theorem heartbeat_blocks_not_drops_on_full_queue :
    heartbeatSend ⟨1, [⟨1, 0, "pending", "telegram"⟩]⟩ 42 "Check weather" =
      SendOutcome.blockedUntilSpace (heartbeatTaskMsg 42 "Check weather") ∧
    heartbeatSend ⟨1, [⟨1, 0, "pending", "telegram"⟩]⟩ 42 "Check weather" ≠
      SendOutcome.droppedFull := by
  refine ⟨by decide, by decide⟩

/-- Claim C3 amended: whenever the dispatcher queue is full, the cron
producer drops the message being enqueued with a log (the channels are left
untouched and every due job id is logged as dropped), while the heartbeat
producer does not drop: it performs a blocking send and waits for queue
space. -/
theorem queue_full_cron_drops_heartbeat_waits
    (ch : Channel InboundMsg) (cid : Int) (task : String)
    (st : CronState) (inb : Channel InboundMsg) (outb : Channel OutboundMsg)
    (now : Nat) (hch : ch.cap ≤ ch.items.length)
    (hin : inb.cap ≤ inb.items.length) (hout : outb.cap ≤ outb.items.length) :
    heartbeatSend ch cid task =
      SendOutcome.blockedUntilSpace (heartbeatTaskMsg cid task) ∧
    (tickOnce st inb outb now).inbound = inb ∧
    (tickOnce st inb outb now).outbound = outb ∧
    (tickOnce st inb outb now).dropped =
      (findDue st.jobs now).map (fun j => j.id) := by
  have hfold := tickFold_full now (findDue st.jobs now) ⟨st, inb, outb, []⟩ hin hout
  refine ⟨?_, ?_, ?_, ?_⟩
  · have hc : ¬ ch.items.length < ch.cap := Nat.not_lt.mpr hch
    simp [heartbeatSend, awaitSend, hc]
  · rw [tickOnce, hfold]
  · rw [tickOnce, hfold]
  · rw [tickOnce, hfold]; simp

/-- Witness for the amended C3 theorem on concrete full channels. -/
theorem queue_full_cron_drops_heartbeat_waits_witness :
    heartbeatSend ⟨1, [⟨1, 0, "pending", "telegram"⟩]⟩ 42 "Check weather" =
      SendOutcome.blockedUntilSpace (heartbeatTaskMsg 42 "Check weather") ∧
    (tickOnce c2Store ⟨0, []⟩ fullOutbound 100).inbound = ⟨0, []⟩ ∧
    (tickOnce c2Store ⟨0, []⟩ fullOutbound 100).outbound = fullOutbound ∧
    (tickOnce c2Store ⟨0, []⟩ fullOutbound 100).dropped =
      (findDue c2Store.jobs 100).map (fun j => j.id) :=
  queue_full_cron_drops_heartbeat_waits ⟨1, [⟨1, 0, "pending", "telegram"⟩]⟩
    42 "Check weather" c2Store ⟨0, []⟩ fullOutbound 100
    (by decide) (by decide) (by decide)

/-! ## Cron store operation sequences (claim C5) -/

/-- The CronStore operations of claim C5, each carrying the clock value the
store would read from `unix_now()`. -/
inductive CronOp where
  | add (label : Option String) (message : String) (action : JobAction)
        (schedule : Schedule) (chat_id : Int) (now : Nat)
  | enable (id : String) (now : Nat)
  | disable (id : String)
  | markFired (id : String) (now : Nat)

/-- Apply one operation to the store (a failing `add` leaves the store
unchanged: the tool only reports the validation error). -/
def applyCronOp (st : CronState) : CronOp → CronState
  | .add label message action schedule chat_id now =>
    match cronAdd st label message action schedule chat_id now with
    | Except.ok p => p.1
    | Except.error _ => st
  | .enable id now => cronEnable st id now
  | .disable id => cronDisable st id
  | .markFired id now => cronMarkFired st id now

/-- Claim C5's invariant, exactly as stated: next-fire is None iff the job is
disabled or (its schedule is Once and last-fire is set). -/
def c5ClaimInv (j : CronJob) : Prop :=
  j.next_run = none ↔
    (j.enabled = false ∨ (isOnceSched j.schedule = true ∧ j.last_run ≠ none))

instance (j : CronJob) : Decidable (c5ClaimInv j) := by
  unfold c5ClaimInv; infer_instance

/-- The store of the C5 counterexample: one Once job added at time 50 for
time 100, then `enable` called at time 200 (after the scheduled time passed
without a fire). -/
def c5Store : CronState :=
  applyCronOp (applyCronOp emptyCronState
    (CronOp.add none "m" JobAction.direct (Schedule.once 100) 1 50))
    (CronOp.enable "job-1" 200)

/-- The resulting job of the C5 counterexample. -/
def c5Job : CronJob :=
  ⟨"job-1", none, "m", JobAction.direct, Schedule.once 100, true, 1, 50, none, none⟩

/-- Claim C5 counterexample: after add(Once at 100) at time 50 and
enable at time 200, job-1 is enabled with last-fire unset and next-fire
None — the claimed iff is false for it (next-fire is None although the job
is neither disabled nor a fired Once job). -/
theorem cron_next_fire_iff_counterexample :
    c5Store.jobs = [c5Job] ∧ ¬ c5ClaimInv c5Job := by
  refine ⟨by decide, by decide⟩

/-- The id is due in the store at the given time: `cron_runner.rs` calls
`mark_fired` only on ids returned by `find_due`. -/
def dueIn (st : CronState) (id : String) (now : Nat) : Prop :=
  ∀ j ∈ st.jobs, j.id = id →
    j.enabled = true ∧ ∃ n, j.next_run = some n ∧ n ≤ now

/-- Stores reachable from the empty store by add/enable/disable operations
and by mark_fired applied only to due jobs (the runner's call pattern). -/
inductive ReachableCron : CronState → Prop where
  | protected empty : ReachableCron emptyCronState
  | protected add {st} (label : Option String) (message : String)
      (action : JobAction) (schedule : Schedule) (chat_id : Int) (now : Nat) :
      ReachableCron st →
      ReachableCron (applyCronOp st (.add label message action schedule chat_id now))
  | protected enable {st} (id : String) (now : Nat) :
      ReachableCron st → ReachableCron (cronEnable st id now)
  | protected disable {st} (id : String) :
      ReachableCron st → ReachableCron (cronDisable st id)
  | protected markFired {st} (id : String) (now : Nat) :
      ReachableCron st → dueIn st id now → ReachableCron (cronMarkFired st id now)

/-- The inductive invariant behind the amended C5: a disabled job has no next
fire; an enabled job's next fire is the schedule's next fire time after some
recomputation instant. -/
def cronInv (j : CronJob) : Prop :=
  (j.enabled = false → j.next_run = none) ∧
  (j.enabled = true → ∃ t, j.next_run = nextFireAfter j.schedule t)

/-- Membership in `updateFirst`: an element of the updated list is an
original element or the image of a matching original element. -/
theorem mem_updateFirst {p : CronJob → Bool} {f : CronJob → CronJob} :
    ∀ {l : List CronJob} {x : CronJob}, x ∈ updateFirst p f l →
      x ∈ l ∨ ∃ j ∈ l, p j = true ∧ x = f j := by
  intro l
  induction l with
  | nil => intro x hx; exact absurd hx (by simp [updateFirst])
  | cons j rest ih =>
    intro x hx
    by_cases hp : p j
    · rw [updateFirst, if_pos hp] at hx
      rcases List.mem_cons.mp hx with h | h
      · exact Or.inr ⟨j, List.mem_cons_self j rest, hp, h⟩
      · exact Or.inl (List.mem_cons_of_mem j h)
    · rw [updateFirst, if_neg hp] at hx
      rcases List.mem_cons.mp hx with h | h
      · exact Or.inl (h ▸ List.mem_cons_self j rest)
      · rcases ih h with h2 | ⟨j2, hj2, hpj2, hxj2⟩
        · exact Or.inl (List.mem_cons_of_mem j h2)
        · exact Or.inr ⟨j2, List.mem_cons_of_mem j hj2, hpj2, hxj2⟩

/-- A successful `cronAdd` appends exactly one enabled job whose next fire is
the schedule's next fire time after the add instant. -/
theorem cronAdd_ok {st : CronState} {label : Option String} {message : String}
    {action : JobAction} {schedule : Schedule} {chat_id : Int} {now : Nat}
    {st2 : CronState} {job : CronJob}
    (h : cronAdd st label message action schedule chat_id now =
      Except.ok (st2, job)) :
    st2.jobs = st.jobs ++ [job] ∧ job.enabled = true ∧
    job.schedule = schedule ∧ job.last_run = none ∧
    job.next_run = nextFireAfter schedule now := by
  cases schedule with
  | once at_unix =>
    by_cases hle : at_unix ≤ now
    · simp [cronAdd, hle] at h
    · simp [cronAdd, hle] at h
      obtain ⟨h1, h2⟩ := h
      subst h1; subst h2
      exact ⟨rfl, rfl, rfl, rfl, by simp [nextFireAfter, Nat.lt_of_not_le hle]⟩
  | interval s =>
    by_cases hlt : s < 60
    · simp [cronAdd, hlt] at h
    · simp [cronAdd, hlt] at h
      obtain ⟨h1, h2⟩ := h
      subst h1; subst h2
      exact ⟨rfl, rfl, rfl, rfl, rfl⟩
  | cron e =>
    cases hn : nextFireAfter (Schedule.cron e) now with
    | none => simp [cronAdd, hn] at h
    | some v =>
      simp [cronAdd, hn] at h
      obtain ⟨h1, h2⟩ := h
      subst h1; subst h2
      exact ⟨rfl, rfl, rfl, rfl, rfl⟩

/-- Every job of a reachable store satisfies `cronInv` (shared helper for the
amended C5). -/
theorem reachable_cronInv {st : CronState} (h : ReachableCron st) :
    ∀ j ∈ st.jobs, cronInv j := by
  induction h with
  | empty => intro j hj; exact absurd hj (by simp [emptyCronState])
  | add label message action schedule chat_id now _ ih =>
    intro j hj
    rw [applyCronOp] at hj
    rcases hadd : cronAdd _ label message action schedule chat_id now with he | hok
    · rw [hadd] at hj; exact ih j hj
    · rw [hadd] at hj
      obtain ⟨st2, job⟩ := hok
      obtain ⟨hjobs, hen, hsched, _, hnext⟩ := cronAdd_ok hadd
      rw [hjobs] at hj
      rcases List.mem_append.mp hj with hold | hnew
      · exact ih j hold
      · have hje : j = job := by simpa using hnew
        subst hje
        exact ⟨fun hf => absurd hf (by rw [hen]; simp),
          fun _ => ⟨now, by rw [hnext, hsched]⟩⟩
  | enable id now _ ih =>
    intro j hj
    rcases mem_updateFirst hj with hold | ⟨j0, hj0, _, hji⟩
    · exact ih j hold
    · subst hji
      exact ⟨fun hf => by simp at hf, fun _ => ⟨now, rfl⟩⟩
  | disable id _ ih =>
    intro j hj
    rcases mem_updateFirst hj with hold | ⟨j0, hj0, _, hji⟩
    · exact ih j hold
    · subst hji
      exact ⟨fun _ => rfl, fun ht => by simp at ht⟩
  | markFired id now _ hdue ih =>
    intro j hj
    rcases mem_updateFirst hj with hold | ⟨j0, hj0, hpj0, hji⟩
    · exact ih j hold
    · subst hji
      have hen : j0.enabled = true := (hdue j0 hj0 (by simpa using hpj0)).1
      cases hs : j0.schedule with
      | once at_unix =>
        refine ⟨fun _ => ?_, fun hct => ?_⟩
        · simp [markFiredJob, hs]
        · rw [markFiredJob, hs] at hct
          simp at hct
      | interval s =>
        refine ⟨fun hf => ?_, fun _ => ⟨now, ?_⟩⟩
        · rw [markFiredJob, hs] at hf
          simp at hf
          exact absurd hf (by simp [hen])
        · simp [markFiredJob, hs, nextFireAfter]
      | cron e =>
        refine ⟨fun hf => ?_, fun _ => ⟨now, ?_⟩⟩
        · rw [markFiredJob, hs] at hf
          simp at hf
          exact absurd hf (by simp [hen])
        · simp [markFiredJob, hs]

/-- Claim C5 amended: in every store reachable by add, enable, disable and
due-only mark_fired operations, next-fire is None iff the job is disabled or
the schedule yielded no fire time at its most recent recomputation; in
particular a disabled job's next-fire is always None and an enabled job's
next-fire equals the schedule's next fire time after some recomputation
instant.  (The original iff fails when enable is called on a Once job whose
scheduled time passed without a fire, as the counterexample shows.) -/
theorem cron_next_fire_none_characterization {st : CronState}
    (h : ReachableCron st) :
    ∀ j ∈ st.jobs,
      (j.enabled = false → j.next_run = none) ∧
      (j.enabled = true → ∃ t, j.next_run = nextFireAfter j.schedule t) ∧
      (j.next_run = none ↔
        (j.enabled = false ∨
          ∃ t, nextFireAfter j.schedule t = none ∧
            j.next_run = nextFireAfter j.schedule t)) := by
  intro j hj
  obtain ⟨h1, h2⟩ := reachable_cronInv h j hj
  refine ⟨h1, h2, ?_, ?_⟩
  · intro hnone
    cases hen : j.enabled with
    | false => exact Or.inl rfl
    | true =>
      obtain ⟨t, ht⟩ := h2 hen
      exact Or.inr ⟨t, by rw [← ht, hnone], ht⟩
  · intro hcase
    rcases hcase with hf | ⟨t, hnfa, hj2⟩
    · exact h1 hf
    · rw [hj2, hnfa]

/-- Witness for the amended C5 theorem, applied to the counterexample store
(reachable by add-then-enable): the characterization holds of its job. -/
theorem cron_next_fire_none_characterization_witness :
    (c5Job.enabled = false → c5Job.next_run = none) ∧
    (c5Job.enabled = true → ∃ t, c5Job.next_run = nextFireAfter c5Job.schedule t) ∧
    (c5Job.next_run = none ↔
      (c5Job.enabled = false ∨
        ∃ t, nextFireAfter c5Job.schedule t = none ∧
          c5Job.next_run = nextFireAfter c5Job.schedule t)) := by
  have hreach : ReachableCron c5Store :=
    ReachableCron.enable "job-1" 200
      (ReachableCron.add none "m" JobAction.direct (Schedule.once 100) 1 50
        ReachableCron.empty)
  exact cron_next_fire_none_characterization hreach c5Job (by decide)

/-! ## Subagent scheduler (src/agent/subagent_manager.rs) -/

/-- src/agent/subagent_manager.rs `SubagentStatus`. -/
inductive SubagentStatus where
  | running
  | completed
  | failed
  | cancelled
deriving DecidableEq, Repr

/-- src/agent/subagent_manager.rs `SubagentTask` (the `Instant` creation time
becomes a Nat). -/
structure SubagentTask where
  id : String
  label : Option String
  task : String
  status : SubagentStatus
  result : Option String
  created_at : Nat
deriving DecidableEq, Repr

/-- src/agent/subagent_manager.rs `TaskEntry`: the snapshot plus the abort
handle, modelled by its presence. -/
structure TaskEntry where
  info : SubagentTask
  abort_handle : Option Unit
deriving DecidableEq, Repr

/-- src/agent/subagent_manager.rs `ManagerState`: the task `HashMap` is
modelled as an association list with distinct keys (insertion appends;
HashMap iteration order is arbitrary in Rust, so the list order is one
admissible order). -/
structure ManagerState where
  tasks : List (String × TaskEntry)
deriving DecidableEq, Repr

/-- `HashMap::get` (first match; keys are unique in every real state). -/
def mgrGet (st : ManagerState) (task_id : String) : Option TaskEntry :=
  (st.tasks.find? (fun p => decide (p.1 = task_id))).map Prod.snd

/-- `get_mut` followed by a mutation: update the first entry with the key. -/
def updateEntry (task_id : String) (f : TaskEntry → TaskEntry) :
    List (String × TaskEntry) → List (String × TaskEntry)
  | [] => []
  | p :: rest =>
    if p.1 = task_id then (p.1, f p.2) :: rest
    else p :: updateEntry task_id f rest

/-- src/agent/subagent_manager.rs `MAX_COMPLETED_TASKS`. -/
def MAX_COMPLETED_TASKS : Nat := 50

/-- A task entry is non-running (the pruning criterion). -/
def nonRunningB (p : String × TaskEntry) : Bool :=
  decide (p.2.info.status ≠ SubagentStatus.running)

/-- The count of non-Running entries in the task map. -/
def countNonRunning (st : ManagerState) : Nat :=
  (st.tasks.filter nonRunningB).length

/-- The (key, creation time) pair `prune_completed` collects per entry. -/
def pairOfEntry (p : String × TaskEntry) : String × Nat :=
  (p.1, p.2.info.created_at)

/-- The `sort_by_key(created_at)` order of `prune_completed`. -/
def createdLe (a b : String × Nat) : Prop := a.2 ≤ b.2

instance : DecidableRel createdLe := fun a b => Nat.decLe a.2 b.2

instance : IsTotal (String × Nat) createdLe := ⟨fun a b => Nat.le_total a.2 b.2⟩

instance : IsTrans (String × Nat) createdLe :=
  ⟨fun _ _ _ hab hbc => Nat.le_trans hab hbc⟩

/-- The `non_running` vector collected by `prune_completed`: the (key,
created_at) pairs of the non-Running entries. -/
def nonRunningPairs (m : ManagerState) : List (String × Nat) :=
  (m.tasks.filter nonRunningB).map pairOfEntry

/-- The `non_running` vector after `sort_by_key(created_at)`. -/
def sortedPairs (m : ManagerState) : List (String × Nat) :=
  List.insertionSort createdLe (nonRunningPairs m)

/-- The keys `prune_completed` removes: the first `non_running.len() - 50`
of the sorted vector, i.e. the oldest surplus non-Running entries. -/
def pruneVictims (m : ManagerState) : List String :=
  ((sortedPairs m).take ((nonRunningPairs m).length - MAX_COMPLETED_TASKS)).map
    Prod.fst

/-- src/agent/subagent_manager.rs `prune_completed`: when more than
`MAX_COMPLETED_TASKS` entries are non-Running, sort their (key, created_at)
pairs by creation time and remove the oldest surplus from the map. -/
def pruneCompleted (m : ManagerState) : ManagerState :=
  if (nonRunningPairs m).length ≤ MAX_COMPLETED_TASKS then m
  else ⟨m.tasks.filter (fun p => ! (pruneVictims m).contains p.1)⟩

/-- src/agent/subagent_manager.rs `SubagentManager::spawn`, state effect:
insert a fresh Running entry `subagent-<n>` holding the abort handle (the
handle is attached right after the `tokio::spawn`; the model inserts it
directly).  Returns the new state, the next counter and the task id. -/
def mgrSpawn (st : ManagerState) (next_id : Nat) (task : String)
    (label : Option String) (created_at : Nat) : ManagerState × Nat × String :=
  let task_id := "subagent-" ++ toString next_id
  (⟨st.tasks ++
     [(task_id, ⟨⟨task_id, label, task, SubagentStatus.running, none, created_at⟩,
       some ()⟩)]⟩,
   next_id + 1, task_id)

/-- src/agent/subagent_manager.rs `SubagentManager::complete_task`: ignored
when the task is already terminal (early return, no pruning); otherwise the
entry takes the given status and result, drops its abort handle, and
`prune_completed` runs (it also runs when the id is unknown). -/
def completeTask (st : ManagerState) (task_id : String)
    (status : SubagentStatus) (result : Option String) : ManagerState :=
  match mgrGet st task_id with
  | some e =>
    if e.info.status ≠ SubagentStatus.running then st
    else
      pruneCompleted ⟨updateEntry task_id
        (fun e2 => ⟨{ e2.info with status := status, result := result }, none⟩)
        st.tasks⟩
  | none => pruneCompleted st

/-- src/agent/subagent_manager.rs `SubagentManager::cancel`: false when the
id is unknown or the task is terminal; otherwise abort, set Cancelled with
result "Cancelled", and return true.  No pruning. -/
def mgrCancel (st : ManagerState) (task_id : String) : ManagerState × Bool :=
  match mgrGet st task_id with
  | none => (st, false)
  | some e =>
    if e.info.status ≠ SubagentStatus.running then (st, false)
    else
      (⟨updateEntry task_id
         (fun e2 =>
           ⟨{ e2.info with
              status := SubagentStatus.cancelled
              result := some "Cancelled" }, none⟩)
         st.tasks⟩, true)

/-- Claim C10: a further complete call on a terminal task is a no-op (the
whole state, hence the first terminal status and result, is retained) and
cancel on it returns false changing nothing; conversely cancel returns true
only when the task exists and is Running. -/
theorem terminal_complete_noop_cancel_false (st : ManagerState)
    (task_id : String) (status : SubagentStatus) (result : Option String) :
    ((∃ e, mgrGet st task_id = some e ∧ e.info.status ≠ SubagentStatus.running) →
      completeTask st task_id status result = st ∧
      mgrCancel st task_id = (st, false)) ∧
    ((mgrCancel st task_id).2 = true →
      ∃ e, mgrGet st task_id = some e ∧
        e.info.status = SubagentStatus.running) := by
  constructor
  · rintro ⟨e, hget, hterm⟩
    constructor
    · rw [completeTask, hget]
      simp [hterm]
    · rw [mgrCancel, hget]
      simp [hterm]
  · intro htrue
    rw [mgrCancel] at htrue
    cases hget : mgrGet st task_id with
    | none => rw [hget] at htrue; simp at htrue
    | some e =>
      rw [hget] at htrue
      by_cases hr : e.info.status ≠ SubagentStatus.running
      · simp [hr] at htrue
      · push_neg at hr
        exact ⟨e, rfl, hr⟩

/-- A one-task manager state whose task is already Completed (witness data
for C10). -/
def c10State : ManagerState :=
  ⟨[("subagent-1",
     ⟨⟨"subagent-1", none, "t", SubagentStatus.completed, some "ok", 1⟩, none⟩)]⟩

/-- Witness for the C10 theorem on a completed task: a second complete is a
no-op and cancel returns false without change. -/
theorem terminal_complete_noop_cancel_false_witness :
    completeTask c10State "subagent-1" SubagentStatus.failed (some "b") =
      c10State ∧
    mgrCancel c10State "subagent-1" = (c10State, false) :=
  (terminal_complete_noop_cancel_false c10State "subagent-1"
      SubagentStatus.failed (some "b")).1
    ⟨⟨⟨"subagent-1", none, "t", SubagentStatus.completed, some "ok", 1⟩, none⟩,
     by decide, by decide⟩

/-- Two entries of a distinct-key map with the same key are the same entry
(shared helper). -/
theorem eq_of_mem_of_nodup_keys :
    ∀ {l : List (String × TaskEntry)}, (l.map Prod.fst).Nodup →
      ∀ {p q : String × TaskEntry}, p ∈ l → q ∈ l → p.1 = q.1 → p = q := by
  intro l
  induction l with
  | nil => intro _ p q hp; simp at hp
  | cons a rest ih =>
    intro hnd p q hp hq hk
    rw [List.map_cons, List.nodup_cons] at hnd
    rcases List.mem_cons.mp hp with hp1 | hp2 <;>
      rcases List.mem_cons.mp hq with hq1 | hq2
    · rw [hp1, hq1]
    · exfalso
      apply hnd.1
      rw [← hp1, hk]
      exact List.mem_map_of_mem Prod.fst hq2
    · exfalso
      apply hnd.1
      rw [← hq1, ← hk]
      exact List.mem_map_of_mem Prod.fst hp2
    · exact ih hnd.2 hp2 hq2 hk

/-- `updateEntry` keeps the key sequence (shared helper). -/
theorem map_fst_updateEntry (task_id : String) (f : TaskEntry → TaskEntry) :
    ∀ l : List (String × TaskEntry),
      (updateEntry task_id f l).map Prod.fst = l.map Prod.fst := by
  intro l
  induction l with
  | nil => rfl
  | cons p rest ih =>
    by_cases hp : p.1 = task_id
    · simp [updateEntry, hp]
    · simp [updateEntry, hp, ih]

/-- `updateEntry` keeps the entry count (shared helper). -/
theorem length_updateEntry (task_id : String) (f : TaskEntry → TaskEntry) :
    ∀ l : List (String × TaskEntry),
      (updateEntry task_id f l).length = l.length := by
  intro l
  induction l with
  | nil => rfl
  | cons p rest ih =>
    by_cases hp : p.1 = task_id
    · simp [updateEntry, hp]
    · simp [updateEntry, hp, ih]

/-- Entries with a different key pass through `updateEntry` (shared
helper). -/
theorem mem_updateEntry_of_ne (task_id : String) (f : TaskEntry → TaskEntry) :
    ∀ {l : List (String × TaskEntry)} {p : String × TaskEntry},
      p ∈ l → p.1 ≠ task_id → p ∈ updateEntry task_id f l := by
  intro l
  induction l with
  | nil => intro p hp; simp at hp
  | cons a rest ih =>
    intro p hp hne
    rcases List.mem_cons.mp hp with hp1 | hp2
    · subst hp1
      rw [updateEntry, if_neg hne]
      exact List.mem_cons_self _ _
    · by_cases ha : a.1 = task_id
      · rw [updateEntry, if_pos ha]
        exact List.mem_cons_of_mem _ hp2
      · rw [updateEntry, if_neg ha]
        exact List.mem_cons_of_mem _ (ih hp2 hne)

/-- After the Running → terminal transition of `complete_task`, the map has
exactly one more non-Running entry (shared helper). -/
theorem filter_nonRunning_updateEntry (task_id : String)
    (status : SubagentStatus) (result : Option String)
    (hstatus : status ≠ SubagentStatus.running) :
    ∀ (l : List (String × TaskEntry)),
      (∃ pr, l.find? (fun p => decide (p.1 = task_id)) = some pr ∧
        pr.2.info.status = SubagentStatus.running) →
      ((updateEntry task_id
          (fun e2 => ⟨{ e2.info with status := status, result := result }, none⟩)
          l).filter nonRunningB).length = (l.filter nonRunningB).length + 1 := by
  intro l
  induction l with
  | nil => rintro ⟨pr, hpr, _⟩; simp at hpr
  | cons a rest ih =>
    rintro ⟨pr, hpr, hrun⟩
    by_cases ha : a.1 = task_id
    · rw [List.find?_cons_of_pos _ (by simpa using ha)] at hpr
      have hpra : pr = a := by injection hpr with h; exact h.symm
      rw [hpra] at hrun
      rw [updateEntry, if_pos ha]
      have h1 : nonRunningB (a.1,
          ⟨{ a.2.info with status := status, result := result }, none⟩) = true := by
        simp [nonRunningB, hstatus]
      have h2 : nonRunningB a = false := by
        simp [nonRunningB, hrun]
      rw [List.filter_cons, List.filter_cons, h1, h2]
      simp [Nat.add_comm]
    · rw [List.find?_cons_of_neg _ (by simpa using ha)] at hpr
      rw [updateEntry, if_neg ha, List.filter_cons, List.filter_cons]
      cases hna : nonRunningB a with
      | true => simp [ih ⟨pr, hpr, hrun⟩]
      | false => simp [ih ⟨pr, hpr, hrun⟩]

/-- The keys of the non-running pair vector are the keys of the non-Running
entries (shared helper). -/
theorem map_fst_nonRunningPairs (m : ManagerState) :
    (nonRunningPairs m).map Prod.fst =
      (m.tasks.filter nonRunningB).map Prod.fst := by
  rw [nonRunningPairs, List.map_map]; rfl

/-- With distinct map keys the sorted pair vector has distinct keys (shared
helper). -/
theorem nodup_sortedPairs_keys (m : ManagerState)
    (hkeys : (m.tasks.map Prod.fst).Nodup) :
    ((sortedPairs m).map Prod.fst).Nodup := by
  have h1 : ((m.tasks.filter nonRunningB).map Prod.fst).Nodup :=
    hkeys.sublist ((List.filter_sublist m.tasks).map Prod.fst)
  have h2 : ((nonRunningPairs m).map Prod.fst).Nodup := by
    rw [map_fst_nonRunningPairs]; exact h1
  exact ((List.perm_insertionSort createdLe (nonRunningPairs m)).map
    Prod.fst).nodup_iff.mpr h2

/-- Every victim key is the key of a non-Running entry whose pair sits in the
take-part of the sorted vector (shared helper). -/
theorem victim_entry (m : ManagerState) {k : String}
    (hk : k ∈ pruneVictims m) :
    ∃ p, p ∈ m.tasks ∧ nonRunningB p = true ∧ p.1 = k ∧
      pairOfEntry p ∈ (sortedPairs m).take
        ((nonRunningPairs m).length - MAX_COMPLETED_TASKS) := by
  rw [pruneVictims] at hk
  obtain ⟨a, ha, hak⟩ := List.mem_map.mp hk
  have has : a ∈ sortedPairs m := List.mem_of_mem_take ha
  have hanr : a ∈ nonRunningPairs m :=
    (List.perm_insertionSort createdLe (nonRunningPairs m)).mem_iff.mp has
  obtain ⟨p, hp, hpa⟩ := List.mem_map.mp hanr
  obtain ⟨hpt, hpnr⟩ := List.mem_filter.mp hp
  refine ⟨p, hpt, hpnr, ?_, ?_⟩
  · rw [← hak, ← hpa]; rfl
  · rw [hpa]; exact ha

/-- With distinct keys, a victim key belonging to an entry p pins the
take-part pair down to `pairOfEntry p` (shared helper). -/
theorem victim_entry_self (m : ManagerState)
    (hkeys : (m.tasks.map Prod.fst).Nodup) {p : String × TaskEntry}
    (hp : p ∈ m.tasks) (hk : p.1 ∈ pruneVictims m) :
    nonRunningB p = true ∧
      pairOfEntry p ∈ (sortedPairs m).take
        ((nonRunningPairs m).length - MAX_COMPLETED_TASKS) := by
  obtain ⟨q, hqt, hqnr, hqk, hqtake⟩ := victim_entry m hk
  have hqp : q = p := eq_of_mem_of_nodup_keys hkeys hqt hp hqk
  rw [hqp] at hqnr hqtake
  exact ⟨hqnr, hqtake⟩

/-- A running entry's key is never a victim (shared helper). -/
theorem running_not_victim (m : ManagerState)
    (hkeys : (m.tasks.map Prod.fst).Nodup) {p : String × TaskEntry}
    (hp : p ∈ m.tasks) (hrun : p.2.info.status = SubagentStatus.running) :
    (pruneVictims m).contains p.1 = false := by
  by_cases hc : (pruneVictims m).contains p.1 = true
  · exfalso
    have hmem : p.1 ∈ pruneVictims m := by simpa using hc
    have := (victim_entry_self m hkeys hp hmem).1
    rw [nonRunningB, hrun] at this
    simp at this
  · exact Bool.eq_false_iff.mpr hc

/-- Pairs in the drop-part of the sorted vector have non-victim keys when the
map keys are distinct (shared helper). -/
theorem drop_not_victim (m : ManagerState)
    (hkeys : (m.tasks.map Prod.fst).Nodup) {b : String × Nat}
    (hb : b ∈ (sortedPairs m).drop
      ((nonRunningPairs m).length - MAX_COMPLETED_TASKS)) :
    (pruneVictims m).contains b.1 = false := by
  by_cases hc : (pruneVictims m).contains b.1 = true
  · exfalso
    have hmem : b.1 ∈ pruneVictims m := by simpa using hc
    have hnd := nodup_sortedPairs_keys m hkeys
    rw [← List.take_append_drop
      ((nonRunningPairs m).length - MAX_COMPLETED_TASKS) (sortedPairs m),
      List.map_append, List.nodup_append] at hnd
    exact hnd.2.2 (by simpa [pruneVictims] using hmem)
      (List.mem_map_of_mem Prod.fst hb)
  · exact Bool.eq_false_iff.mpr hc

/-- Full behaviour of `prune_completed` on a distinct-key map: the
non-Running count becomes min(count, 50), Running entries are never evicted,
and every dropped entry is a non-Running entry at least as old as every kept
non-Running entry (shared helper). -/
theorem pruneCompleted_spec (m : ManagerState)
    (hkeys : (m.tasks.map Prod.fst).Nodup) :
    countNonRunning (pruneCompleted m) =
      min (countNonRunning m) MAX_COMPLETED_TASKS ∧
    (∀ p ∈ m.tasks, p.2.info.status = SubagentStatus.running →
      p ∈ (pruneCompleted m).tasks) ∧
    (∀ p ∈ m.tasks, p ∉ (pruneCompleted m).tasks →
      nonRunningB p = true ∧
      ∀ q ∈ (pruneCompleted m).tasks, nonRunningB q = true →
        p.2.info.created_at ≤ q.2.info.created_at) := by
  have hnlen : (nonRunningPairs m).length = countNonRunning m := by
    rw [nonRunningPairs, List.length_map, countNonRunning]
  by_cases hle : (nonRunningPairs m).length ≤ MAX_COMPLETED_TASKS
  · rw [pruneCompleted, if_pos hle]
    have hcount : countNonRunning m ≤ MAX_COMPLETED_TASKS := hnlen ▸ hle
    exact ⟨(min_eq_left hcount).symm, fun p hp _ => hp,
      fun p hp hnp => absurd hp hnp⟩
  · rw [pruneCompleted, if_neg hle]
    have hgt : MAX_COMPLETED_TASKS < countNonRunning m := by
      rw [← hnlen]; exact Nat.lt_of_not_le hle
    refine ⟨?_, ?_, ?_⟩
    · -- count part
      show (List.filter nonRunningB
        (m.tasks.filter (fun p => ! (pruneVictims m).contains p.1))).length = _
      rw [List.filter_filter]
      have hswap : (m.tasks.filter
            (fun a => nonRunningB a && ! (pruneVictims m).contains a.1)) =
          (m.tasks.filter nonRunningB).filter
            (fun p => ! (pruneVictims m).contains p.1) := by
        rw [List.filter_filter]
        exact List.filter_congr (fun a _ => Bool.and_comm _ _)
      rw [hswap, ← List.countP_eq_length_filter]
      have hmapstep : List.countP (fun p => ! (pruneVictims m).contains p.1)
            (m.tasks.filter nonRunningB) =
          List.countP (fun q => ! (pruneVictims m).contains q.1)
            (nonRunningPairs m) := by
        rw [nonRunningPairs, List.countP_map]
        rfl
      rw [hmapstep,
        ← (List.perm_insertionSort createdLe (nonRunningPairs m)).countP_eq]
      have hsplit := List.take_append_drop
        ((nonRunningPairs m).length - MAX_COMPLETED_TASKS) (sortedPairs m)
      rw [show List.insertionSort createdLe (nonRunningPairs m) = sortedPairs m
          from rfl,
        ← hsplit, List.countP_append]
      have htake : List.countP (fun q => ! (pruneVictims m).contains q.1)
          ((sortedPairs m).take
            ((nonRunningPairs m).length - MAX_COMPLETED_TASKS)) = 0 := by
        rw [List.countP_eq_zero]
        intro a ha
        have hmem : a.1 ∈ pruneVictims m := by
          simpa [pruneVictims] using List.mem_map_of_mem Prod.fst ha
        have hc : (pruneVictims m).contains a.1 = true := by simpa using hmem
        show ¬ ((! (pruneVictims m).contains a.1) = true)
        rw [hc]
        simp
      have hdrop : List.countP (fun q => ! (pruneVictims m).contains q.1)
          ((sortedPairs m).drop
            ((nonRunningPairs m).length - MAX_COMPLETED_TASKS)) =
          ((sortedPairs m).drop
            ((nonRunningPairs m).length - MAX_COMPLETED_TASKS)).length := by
        rw [List.countP_eq_length]
        intro b hb
        show (! (pruneVictims m).contains b.1) = true
        rw [drop_not_victim m hkeys hb]
        rfl
      rw [htake, hdrop, List.length_drop]
      have hslen : (sortedPairs m).length = (nonRunningPairs m).length :=
        (List.perm_insertionSort createdLe (nonRunningPairs m)).length_eq
      rw [hslen, hnlen]
      omega
    · -- running entries kept
      intro p hp hrun
      exact List.mem_filter.mpr
        ⟨hp, by rw [running_not_victim m hkeys hp hrun]; rfl⟩
    · -- dropped entries are the oldest non-running ones
      intro p hp hnp
      have hvic : (pruneVictims m).contains p.1 = true := by
        by_cases hc : (pruneVictims m).contains p.1 = true
        · exact hc
        · exact absurd (List.mem_filter.mpr
            ⟨hp, by rw [Bool.eq_false_iff.mpr hc]; rfl⟩) hnp
      have hmem : p.1 ∈ pruneVictims m := by simpa using hvic
      obtain ⟨hpnr, hptake⟩ := victim_entry_self m hkeys hp hmem
      refine ⟨hpnr, ?_⟩
      intro q hq hqnr
      obtain ⟨hqt, hqnv0⟩ := List.mem_filter.mp hq
      have hqnv : q.1 ∉ pruneVictims m := by simpa using hqnv0
      have hqpair : pairOfEntry q ∈ sortedPairs m :=
        (List.perm_insertionSort createdLe (nonRunningPairs m)).mem_iff.mpr
          (List.mem_map_of_mem pairOfEntry (List.mem_filter.mpr ⟨hqt, hqnr⟩))
      have hqdrop : pairOfEntry q ∈ (sortedPairs m).drop
          ((nonRunningPairs m).length - MAX_COMPLETED_TASKS) := by
        have := (List.take_append_drop
          ((nonRunningPairs m).length - MAX_COMPLETED_TASKS)
          (sortedPairs m)).symm
        rw [this, List.mem_append] at hqpair
        rcases hqpair with h1 | h2
        · exact absurd
            (by simpa [pruneVictims] using List.mem_map_of_mem Prod.fst h1) hqnv
        · exact h2
      have hsorted : List.Sorted createdLe (sortedPairs m) :=
        List.sorted_insertionSort createdLe (nonRunningPairs m)
      rw [← List.take_append_drop
        ((nonRunningPairs m).length - MAX_COMPLETED_TASKS) (sortedPairs m),
        List.Sorted, List.pairwise_append] at hsorted
      exact hsorted.2.2 (pairOfEntry p) hptake (pairOfEntry q) hqdrop

/-- Claim C4 amended: pruning runs only on the complete path.  After a
terminal transition performed by `complete_task` on a distinct-key map, the
non-Running count becomes min(previous + 1, 50): the oldest non-Running
entries by creation time are dropped until 50 remain (third conjunct, the
behaviour of `prune_completed` itself) and Running entries other than the
completed one survive untouched.  A terminal transition by `cancel` performs
no pruning at all: the map keeps every entry, so the non-Running count can
exceed 50 until the next complete call. -/
theorem complete_prunes_cancel_does_not (st : ManagerState) (task_id : String)
    (status : SubagentStatus) (result : Option String) (id2 : String)
    (hkeys : (st.tasks.map Prod.fst).Nodup)
    (hrun : ∃ e, mgrGet st task_id = some e ∧
      e.info.status = SubagentStatus.running)
    (hstatus : status ≠ SubagentStatus.running) :
    countNonRunning (completeTask st task_id status result) =
      min (countNonRunning st + 1) MAX_COMPLETED_TASKS ∧
    (∀ p ∈ st.tasks, p.2.info.status = SubagentStatus.running →
      p.1 ≠ task_id → p ∈ (completeTask st task_id status result).tasks) ∧
    (∀ (m : ManagerState), (m.tasks.map Prod.fst).Nodup →
      ∀ p ∈ m.tasks, p ∉ (pruneCompleted m).tasks →
        nonRunningB p = true ∧
        ∀ q ∈ (pruneCompleted m).tasks, nonRunningB q = true →
          p.2.info.created_at ≤ q.2.info.created_at) ∧
    (mgrCancel st id2).1.tasks.length = st.tasks.length := by
  obtain ⟨e, hget, he⟩ := hrun
  have hne : ¬ (e.info.status ≠ SubagentStatus.running) := by rw [he]; simp
  have hstep : completeTask st task_id status result =
      pruneCompleted ⟨updateEntry task_id
        (fun e2 => ⟨{ e2.info with status := status, result := result }, none⟩)
        st.tasks⟩ := by
    rw [completeTask, hget]
    simp [hne]
  have hkeys1 : ((updateEntry task_id
      (fun e2 => ⟨{ e2.info with status := status, result := result }, none⟩)
      st.tasks).map Prod.fst).Nodup := by
    rw [map_fst_updateEntry]
    exact hkeys
  have hspec := pruneCompleted_spec ⟨updateEntry task_id
    (fun e2 => ⟨{ e2.info with status := status, result := result }, none⟩)
    st.tasks⟩ hkeys1
  have hcount1 : (List.filter nonRunningB (updateEntry task_id
      (fun e2 => ⟨{ e2.info with status := status, result := result }, none⟩)
      st.tasks)).length = countNonRunning st + 1 := by
    have hfind : ∃ pr,
        st.tasks.find? (fun p => decide (p.1 = task_id)) = some pr ∧
        pr.2.info.status = SubagentStatus.running := by
      rw [mgrGet] at hget
      obtain ⟨pr, hpr1, hpr2⟩ := Option.map_eq_some'.mp hget
      exact ⟨pr, hpr1, by rw [hpr2]; exact he⟩
    exact filter_nonRunning_updateEntry task_id status result hstatus
      st.tasks hfind
  refine ⟨?_, ?_, ?_, ?_⟩
  · rw [hstep, hspec.1]
    show min (List.filter nonRunningB _).length MAX_COMPLETED_TASKS = _
    rw [hcount1]
  · intro p hp hprun hpne
    rw [hstep]
    exact hspec.2.1 p (mem_updateEntry_of_ne task_id _ hp hpne) hprun
  · intro m hm
    exact (pruneCompleted_spec m hm).2.2
  · cases hg2 : mgrGet st id2 with
    | none => simp [mgrCancel, hg2]
    | some e2 =>
      by_cases h2 : e2.info.status ≠ SubagentStatus.running
      · simp [mgrCancel, hg2, h2]
      · simp only [mgrCancel, hg2]
        rw [if_neg h2]
        exact length_updateEntry id2 _ st.tasks

/-- A one-running-task manager state for the C4 witness. -/
def c4wState : ManagerState :=
  ⟨[("subagent-1",
     ⟨⟨"subagent-1", none, "t", SubagentStatus.running, none, 1⟩, some ()⟩)]⟩

/-- Witness for the amended C4 theorem: completing the single running task
yields one non-Running entry (min(0 + 1, 50)) and cancel keeps the map
size. -/
theorem complete_prunes_cancel_does_not_witness :
    countNonRunning (completeTask c4wState "subagent-1"
      SubagentStatus.completed (some "ok")) =
      min (countNonRunning c4wState + 1) MAX_COMPLETED_TASKS ∧
    (mgrCancel c4wState "subagent-1").1.tasks.length =
      c4wState.tasks.length :=
  ⟨(complete_prunes_cancel_does_not c4wState "subagent-1"
      SubagentStatus.completed (some "ok") "subagent-1" (by decide)
      ⟨⟨⟨"subagent-1", none, "t", SubagentStatus.running, none, 1⟩, some ()⟩,
       by decide, by decide⟩ (by decide)).1,
   (complete_prunes_cancel_does_not c4wState "subagent-1"
      SubagentStatus.completed (some "ok") "subagent-1" (by decide)
      ⟨⟨⟨"subagent-1", none, "t", SubagentStatus.running, none, 1⟩, some ()⟩,
       by decide, by decide⟩ (by decide)).2.2.2⟩

/-- The manager state reached by spawning and completing 50 tasks in turn
(creation times 1..50), used by the C4 counterexample. -/
def c4Spawned : ManagerState × Nat :=
  (List.range 50).foldl
    (fun acc i =>
      let s := mgrSpawn acc.1 acc.2 "t" none (i + 1)
      (completeTask s.1 s.2.2 SubagentStatus.completed (some "ok"), s.2.1))
    (⟨[]⟩, 1)

/-- The 51st task spawned on top (still Running, creation time 51). -/
def c4Before : ManagerState :=
  (mgrSpawn c4Spawned.1 c4Spawned.2 "t" none 51).1

set_option maxRecDepth 40000 in
/-- Claim C4 counterexample: with 50 completed tasks and one running task,
cancelling the running one is a terminal transition after which the number of
non-Running entries is 51 > K = 50, yet nothing is evicted (the map still has
51 entries) — `cancel` never calls `prune_completed`. -/
theorem cancel_terminal_transition_never_prunes :
    (mgrCancel c4Before "subagent-51").2 = true ∧
    countNonRunning (mgrCancel c4Before "subagent-51").1 = 51 ∧
    (mgrCancel c4Before "subagent-51").1.tasks.length = 51 ∧
    MAX_COMPLETED_TASKS = 50 := by
  refine ⟨by decide, by decide, by decide, by decide⟩

/-! ## Session store (src/agent/session.rs)

The SQLite layer behind it, `BrainDb::append_session` and the two-argument
`BrainDb::load_session`, is not present under src/ (src/memory/db.rs holds an
older whole-session interface); the storage for one (chat_id, session_id) is
therefore modelled from the spec as an append-only row list plus summary. -/

/-- src/agent/session.rs `MAX_HISTORY`. -/
def MAX_HISTORY : Nat := 50

/-- src/memory/db.rs `StoredMessage`: one chat_history row (role as text,
tool calls as serialised JSON text). -/
structure StoredMessage where
  role : String
  content : String
  tool_call_id : Option String
  tool_calls : Option String
deriving DecidableEq, Repr

/-- src/agent/session.rs `Session` (the shared `BrainDb` handle is passed to
the operations separately). -/
structure Session where
  history : List Message
  pending_inserts : List Message
  summary : String
  chat_id : String
  session_id : String
deriving DecidableEq, Repr

/-- src/agent/session.rs `role_to_str`. -/
def role_to_str : Role → String
  | Role.system => "system"
  | Role.user => "user"
  | Role.assistant => "assistant"
  | Role.tool => "tool"

/-- src/agent/session.rs `str_to_role` (unknown strings fall back to
User). -/
def str_to_role (s : String) : Role :=
  if s = "system" then Role.system
  else if s = "assistant" then Role.assistant
  else if s = "tool" then Role.tool
  else Role.user

/-- src/agent/session.rs `message_to_stored`; serde_json's serialisation of
the tool calls is the external collaborator `ser`. -/
def message_to_stored (ser : List ToolCall → Except String String)
    (msg : Message) : Except String StoredMessage :=
  match msg.tool_calls with
  | none =>
    Except.ok ⟨role_to_str msg.role, msg.content, msg.tool_call_id, none⟩
  | some tc =>
    match ser tc with
    | Except.error e => Except.error e
    | Except.ok s =>
      Except.ok ⟨role_to_str msg.role, msg.content, msg.tool_call_id, some s⟩

/-- src/agent/session.rs `stored_to_message`; serde_json's parse of the tool
call column is the external collaborator `de`.  An absent or empty column
yields no tool calls. -/
def stored_to_message (de : String → Except String (List ToolCall))
    (stored : StoredMessage) : Except String Message :=
  match stored.tool_calls with
  | none =>
    Except.ok ⟨str_to_role stored.role, stored.content, stored.tool_call_id, none⟩
  | some s =>
    if s = "" then
      Except.ok ⟨str_to_role stored.role, stored.content, stored.tool_call_id, none⟩
    else
      match de s with
      | Except.error e => Except.error e
      | Except.ok tc =>
        Except.ok ⟨str_to_role stored.role, stored.content,
          stored.tool_call_id, some tc⟩

/-- Modelled from the spec: the chat_history rows (in id order) and summary
for one (chat_id, session_id), the storage behind the missing
`BrainDb::append_session` / `BrainDb::load_session`. -/
structure DbSessionState where
  rows : List StoredMessage
  summary : String
deriving DecidableEq, Repr

/-- Modelled from the spec: `BrainDb::append_session` appends the given rows
in one transaction — older rows are never rewritten — and upserts the
summary. -/
def append_session (db : DbSessionState) (stored : List StoredMessage)
    (summary : String) : DbSessionState :=
  ⟨db.rows ++ stored, summary⟩

/-- src/agent/session.rs `cap_history`: drain the oldest entries so that at
most `MAX_HISTORY` remain. -/
def capHistory (s : Session) : Session :=
  if s.history.length > MAX_HISTORY then
    { s with history := s.history.drop (s.history.length - MAX_HISTORY) }
  else s

/-- src/agent/session.rs `Session::add_user_message`: push the message onto
both the pending-insert buffer and the in-memory history, then cap the
latter. -/
def addUserMessage (s : Session) (content : String) : Session :=
  let msg : Message := ⟨Role.user, content, none, none⟩
  capHistory { s with
    pending_inserts := s.pending_inserts ++ [msg]
    history := s.history ++ [msg] }

/-- src/agent/session.rs `Session::save`: a no-op when both the pending
buffer and the summary are empty; otherwise convert every pending insert,
append them together with the summary via the spec-modelled
`append_session`, and clear the pending buffer. -/
def saveSession (ser : List ToolCall → Except String String) (s : Session)
    (db : DbSessionState) : Except String (Session × DbSessionState) :=
  if s.pending_inserts = [] ∧ s.summary = "" then Except.ok (s, db)
  else
    match s.pending_inserts.mapM (message_to_stored ser) with
    | Except.error e => Except.error e
    | Except.ok stored =>
      Except.ok ({ s with pending_inserts := [] },
        append_session db stored s.summary)

/-- src/agent/session.rs `Session::load` over the modelled storage: read all
rows of the session in id order, convert them, and cap the in-memory view to
the most recent `MAX_HISTORY` as a safety net; the pending buffer starts
empty.  (`get_or_create_session_id` passes the stable session id through.) -/
def loadSession (de : String → Except String (List ToolCall))
    (db : DbSessionState) (chat_id session_id : String) :
    Except String Session :=
  match db.rows.mapM (stored_to_message de) with
  | Except.error e => Except.error e
  | Except.ok history =>
    Except.ok (capHistory ⟨history, [], db.summary, chat_id, session_id⟩)

/-- The 55 user message texts of claim C8: "msg 0" .. "msg 54". -/
def c8Contents : List String :=
  (List.range 55).map (fun i => "msg " ++ toString i)

/-- A fresh session for chat "cap2". -/
def freshSession : Session := ⟨[], [], "", "cap2", "sid"⟩

/-- The session after adding the 55 user messages. -/
def c8Session : Session := c8Contents.foldl addUserMessage freshSession

/-- The 55 user messages as Message values. -/
def c8UserMsgs : List Message :=
  c8Contents.map (fun c => ⟨Role.user, c, none, none⟩)

/-- The 55 user messages as stored rows. -/
def c8StoredRows : List StoredMessage :=
  c8Contents.map (fun c => ⟨"user", c, none, none⟩)

set_option maxRecDepth 40000 in
/-- Claim C8: after adding 55 user messages to a fresh session the in-memory
history holds exactly the most recent 50 (messages 5..54, in order) while the
pending buffer holds all 55; save writes all 55 rows to storage append-only
(the store receives every row) and clears the pending buffer; a subsequent
load returns the last 50 messages 5..54 in order.  The serde collaborators
`ser`/`de` are arbitrary: user messages carry no tool calls. -/
theorem session_55_messages_roundtrip
    (ser : List ToolCall → Except String String)
    (de : String → Except String (List ToolCall)) :
    c8Session.history = c8UserMsgs.drop 5 ∧
    c8Session.pending_inserts = c8UserMsgs ∧
    saveSession ser c8Session ⟨[], ""⟩ =
      Except.ok ({ c8Session with pending_inserts := [] },
        ⟨c8StoredRows, ""⟩) ∧
    c8StoredRows.length = 55 ∧ (c8UserMsgs.drop 5).length = 50 ∧
    loadSession de ⟨c8StoredRows, ""⟩ "cap2" "sid" =
      Except.ok ⟨c8UserMsgs.drop 5, [], "", "cap2", "sid"⟩ := by
  refine ⟨by decide, by decide, ?_, by decide, by decide, ?_⟩
  · rfl
  · rfl

end ICrab
